import Mathlib

/-!
# jaguar: length-prefixed TCP framing (tcp_connect.go)

A shallow embedding of the connection code of `tcp_connect.go`:

* the framing codec `packetLenToInt` / `packetLenToByte`,
* the send step, `Push` and `Close`,
* the writer loop `write`,
* the reader loop `read` and the dispatch `route`.

Conventions.

* A byte is a `Fin 256`, a byte slice a `List Byte`.
* Go `int` is the 64-bit two-complement integer; it is an `Int` here and the
  conversions `uintN(plen)` and `int(x)` are written out with explicit
  modular arithmetic (`toUint`, `intOfUint64`).
* Effects on the outside world (closing the socket, calling a middleware
  hook, spawning a dispatch goroutine, writing to the socket) are recorded, in
  program order, as a list of `Event`s.
* The two loops are run with fuel or on a finite script of what the socket
  does: `read fuel` runs at most `fuel` iterations of the reader loop and says
  whether it returned; `write` runs the writer loop on the payloads it receives.
* The reader loop allocates its read buffer with `make([]byte, trialLen)`;
  the largest length the runtime allocates is the parameter `limit` of the
  reader model, and a request above it ends the run in a panic.
* The buffered channel `writeBuffer` is the FIFO list of the payloads that
  were sent on it and not yet received.  A sender that finds the channel full
  waits until the writer loop has received; the order of the payloads is the
  order of the sends, which is what the list records.
-/

namespace Jaguar

/-! ## Data model -/

/-- One octet. -/
abbrev Byte := Fin 256

/-- The two byte orders of `encoding/binary`. -/
inductive ByteOrder where
  | BigEndian
  | LittleEndian
  deriving DecidableEq, Repr

/-- The error values the connection code creates with `errors.New`, and the
errors that come from elsewhere (`other`), told apart by a number. -/
inductive Fault where
  /-- `errors.New("Opt.PacketHeaderLength error")` in `packetLenToByte`. -/
  | headerLength
  /-- `errors.New("Package length exceeds upper limit.")` in `send`. -/
  | tooLarge
  /-- The error `Push` creates when the push context holds no byte. -/
  | noWriteStream
  /-- The error made from a recovered panic value in `route`. -/
  | panicked (value : Nat)
  /-- An error recorded by the push context while `Encode()` ran. -/
  | other (code : Nat)
  deriving DecidableEq, Repr

/-- What the connection code does to the outside world. Middleware hooks are
opaque callbacks: a call is recorded with the registered hook (a number that
names it) and its arguments. -/
inductive Event where
  /-- `tc.Conn.Close()`. -/
  | connClose
  /-- A call `f()` of a hook of `tc.hook.closed`. -/
  | closedHook (f : Nat)
  /-- A call `f(e, stack)` of a hook of `tc.hook.recover`; `stack` tells
  whether a stack trace was passed (`route`) or the empty string. -/
  | recoverHook (f : Nat) (e : Fault) (stack : Bool)
  /-- A call `f(protocolId, pushHandle)` of a hook of `tc.hook.push`. -/
  | pushHook (f : Nat) (protocolId : Nat)
  /-- A call `f(id, newReq)` of a hook of `tc.hook.request`. -/
  | requestHook (f : Nat) (protocolId : Nat)
  /-- The reader loop runs `go tc.route(packetHandle)` on a copy of the body. -/
  | spawnRoute (body : List Byte)
  /-- A successful `tc.Write(bs)`. -/
  | sockWrite (bs : List Byte)
  /-- The call of `Execute` on a fresh handler of registered type `handler`,
  whose request context holds `protocolId` and the buffer `payload`. -/
  | execute (handler : Nat) (protocolId : Nat) (payload : List Byte)
  deriving DecidableEq, Repr

/-- The configuration `_opt`. Its declaration is not part of
`tcp_connect.go`; these are the fields the connection code and the example
server use. `PacketHeaderLength` is converted with `int(...)` by the reader
loop, `PacketMaxLength` is compared with an `int`. -/
structure Opt where
  PacketHeaderLength : Nat
  PacketMaxLength : Int
  ByteOrder : ByteOrder

/-- The middleware `tc.hook`: six hook chains in registration order. Its
declaration is not part of `tcp_connect.go`. Hooks that only observe are
numbers naming the callback; the transform hooks `reader` and `writer` take
the protocol id and a buffer and return a buffer. -/
structure Middleware where
  closed : List Nat
  recover : List Nat
  reader : List (Nat → List Byte → List Byte)
  writer : List (Nat → List Byte → List Byte)
  request : List Nat
  push : List Nat

/-! ## Fixed-width integers -/

/-- The conversion `uintN(plen)` of a Go `int` to an unsigned integer of
`w` bytes: reduction modulo `2 ^ (8 * w)`. -/
def toUint (w : Nat) (plen : Int) : Nat :=
  (plen % (2 ^ (8 * w) : Int)).toNat

/-- The conversion `int(x)` of a `uint64`: values from `2 ^ 63` on wrap
to negative integers. -/
def intOfUint64 (x : Nat) : Int :=
  if x < 2 ^ 63 then (x : Int) else (x : Int) - 2 ^ 64

/-- The value `binary.BigEndian` gives to a byte slice (`Uint16`, `Uint32`,
`Uint64`: shift the accumulator by one byte and add the next one). -/
def bigEndianValue (bs : List Byte) : Nat :=
  bs.foldl (fun acc b => acc * 256 + b.val) 0

/-- The `w` low bytes of `x`, least significant first. -/
def littleEndianBytes : Nat → Nat → List Byte
  | 0, _ => []
  | w + 1, x => (Fin.ofNat (x % 256)) :: littleEndianBytes w (x / 256)

/-- The `w` low bytes of `x`, most significant first (`PutUint16`, ...). -/
def bigEndianBytes (w : Nat) (x : Nat) : List Byte :=
  (littleEndianBytes w x).reverse

/-! ## Framing codec -/

/-- The method `packetLenToInt`: the header `head` read big-endian as an
unsigned integer of `len(head)` bytes and converted to `int`. Any other
length closes the socket and gives `0`. Returns the `int` and the events. -/
def packetLenToInt (head : List Byte) : Int × List Event :=
  if head.length = 1 then ((bigEndianValue head : Nat), [])
  else if head.length = 2 then ((bigEndianValue head : Nat), [])
  else if head.length = 4 then ((bigEndianValue head : Nat), [])
  else if head.length = 8 then (intOfUint64 (bigEndianValue head), [])
  else (0, [Event.connClose])

/-- Modelled from the spec: the helper `toBytes`, which `packetLenToByte`
calls and which is declared outside `tcp_connect.go`. The spec has the length
header written as an unsigned integer of the header width in the configured
byte order; writing a fixed-width integer into a memory buffer cannot fail, so
the error result is always `nil` (`some` here). -/
def toBytes (order : ByteOrder) (w : Nat) (x : Nat) : Option (List Byte) :=
  match order with
  | ByteOrder.BigEndian => some (bigEndianBytes w x)
  | ByteOrder.LittleEndian => some (littleEndianBytes w x)

/-- The method `packetLenToByte`: for a header length of 1, 2, 4 or 8 the
bytes `toBytes` gives for `uintN(plen)`; otherwise, or when `toBytes` fails,
every recover hook is called with the header-length error, the socket is
closed and the empty slice is returned. -/
def packetLenToByte (opt : Opt) (hook : Middleware) (plen : Int) :
    List Byte × List Event :=
  let w := opt.PacketHeaderLength
  let encoded : Option (List Byte) :=
    if w = 1 ∨ w = 2 ∨ w = 4 ∨ w = 8 then toBytes opt.ByteOrder w (toUint w plen)
    else none
  match encoded with
  | some data => (data, [])
  | none =>
    ([], hook.recover.map (fun f => Event.recoverHook f Fault.headerLength false)
          ++ [Event.connClose])

/-- The method `readBreak`: every closed hook, in registration order. -/
def readBreak (hook : Middleware) : List Event :=
  hook.closed.map Event.closedHook

/-! ## Outbound path -/

/-- The method `Close`: the empty payload is sent on `writeBuffer`, then the
socket is closed. Returns the new queue and the events. -/
def Close (queue : List (List Byte)) : List (List Byte) × List Event :=
  (queue ++ [[]], [Event.connClose])

/-- The method `send`: an empty payload is dropped; a payload longer than
`PacketMaxLength` is reported to every recover hook and dropped; any other
payload is sent on `writeBuffer`. Returns the new queue and the events. -/
def send (opt : Opt) (hook : Middleware) (queue : List (List Byte)) (data : List Byte) :
    List (List Byte) × List Event :=
  let dataLen : Int := (data.length : Int)
  if dataLen = 0 then (queue, [])
  else if dataLen > opt.PacketMaxLength then
    (queue, hook.recover.map (fun f => Event.recoverHook f Fault.tooLarge false))
  else (queue ++ [data], [])

/-- The push context `ph` as `pushHandle.Encode()` leaves it. The push handle
and the object being pushed are declared outside `tcp_connect.go`; `Push`
reads these two fields after `Encode()` has returned. `outBuffer = none` is
the nil buffer. -/
structure PushContext where
  outBuffer : Option (List Byte)
  writeError : Option Fault

/-- The method `Push`, from the call of the push hooks on; `ph` is the
push context after `Encode()`. Returns the error (`none` is `nil`), the new
queue and the events. -/
def Push (opt : Opt) (hook : Middleware) (queue : List (List Byte)) (protocolId : Nat)
    (ph : PushContext) : Option Fault × List (List Byte) × List Event :=
  let pushed := hook.push.map (fun f => Event.pushHook f protocolId)
  match ph.outBuffer with
  | none => (some Fault.noWriteStream, queue, pushed)
  | some buffer =>
    if buffer.length = 0 then (some Fault.noWriteStream, queue, pushed)
    else
      match ph.writeError with
      | none =>
        let out := hook.writer.foldl (fun b f => f protocolId b) buffer
        let sent := send opt hook queue out
        (none, sent.1, pushed ++ sent.2)
      | some e => (some e, queue, pushed)

/-- The method `respone`: the writer hooks, then `send`. -/
def respone (opt : Opt) (hook : Middleware) (queue : List (List Byte)) (protocolId : Nat)
    (buffer : List Byte) : List (List Byte) × List Event :=
  send opt hook queue (hook.writer.foldl (fun b f => f protocolId b) buffer)

/-! ## Writer loop -/

/-- How a run of the writer loop ends: it returned, or it waits on the empty
channel for the next payload. -/
inductive WriteResult where
  | returned (closed : Bool) (trace : List Event)
  | waiting (closed : Bool) (trace : List Event)
  deriving DecidableEq, Repr

/-- Whether a list of events closes the socket. -/
def closes (evs : List Event) : Bool :=
  evs.any (fun e => e = Event.connClose)

/-- The method `write`, run on the payloads `queue` that are received from
`writeBuffer` in this order. `wr k` tells whether the `k`-th call of
`tc.Write` on the open socket succeeds; a write on a closed socket fails.
`closed` is the state of the socket, `n` the number of writes so far. -/
def write (opt : Opt) (hook : Middleware) (wr : Nat → Bool) :
    List (List Byte) → Bool → Nat → List Event → WriteResult
  | [], closed, _, trace => WriteResult.waiting closed trace
  | data :: queue, closed, n, trace =>
    let headLen : Int := (data.length : Int)
    if headLen = 0 then WriteResult.returned closed trace
    else
      let head := packetLenToByte opt hook headLen
      let closed1 := closed || closes head.2
      let trace1 := trace ++ head.2
      if closed1 || !wr n then WriteResult.returned closed1 trace1
      else if !wr (n + 1) then
        WriteResult.returned closed1 (trace1 ++ [Event.sockWrite head.1])
      else
        write opt hook wr queue closed1 (n + 2)
          (trace1 ++ [Event.sockWrite head.1, Event.sockWrite data])

/-- The bytes put on the socket by a list of events. -/
def wireBytes : List Event → List Byte
  | [] => []
  | Event.sockWrite bs :: evs => bs ++ wireBytes evs
  | _ :: evs => wireBytes evs

/-! ## Reader loop -/

/-- What one call of `tc.Conn.Read(data)` on the open socket does: it returns
without error and with at most `m` of the bytes the peer has sent (`deliver
m`), or it returns an error (`fail`: reset, end of stream with error, deadline
exceeded). -/
inductive ReadEvent where
  | deliver (m : Nat)
  | fail
  deriving DecidableEq, Repr

/-- How the inner loop of `read` ends: the packet is full (`done`, with the
packet, the bytes not yet read and the coming calls of `Read`), or the loop is
left by `len == 0 || derr != nil` (`failed`), or `make([]byte, trialLen)`
panics (`panic`). -/
inductive Filled where
  | done (packet : List Byte) (incoming : List Byte) (reads : List ReadEvent)
  | failed
  | panic
  deriving DecidableEq, Repr

/-- The inner loop of `read`: `for trialLen > 0 { ... }`. `limit` is the
largest length the runtime allocates: each turn of the loop first runs
`data = make([]byte, trialLen)`, which panics when `trialLen` is above
`limit`. `reads` are the outcomes of the coming calls of `Read` (when none is
left the call fails: the deadline passes), `incoming` the bytes sent by the
peer and not yet read, `packet` the buffer being filled. A call asks for
`trialLen` bytes and gets `len = min trialLen (min m (len incoming))` of
them. -/
def readFull (limit : Nat) : List ReadEvent → Nat → List Byte → List Byte → Filled
  | reads, 0, incoming, packet => Filled.done packet incoming reads
  | [], t + 1, _, _ => if limit < t + 1 then Filled.panic else Filled.failed
  | ReadEvent.fail :: _, t + 1, _, _ => if limit < t + 1 then Filled.panic else Filled.failed
  | ReadEvent.deliver m :: reads, t + 1, incoming, packet =>
    if limit < t + 1 then Filled.panic
    else
      let len := min (t + 1) (min m incoming.length)
      if len = 0 then Filled.failed
      else readFull limit reads (t + 1 - len) (incoming.drop len) (packet ++ incoming.take len)

/-- The state of the reader loop at the top of an iteration of its `for`. -/
structure ReaderState where
  action : Nat
  bodyLen : Int
  incoming : List Byte
  reads : List ReadEvent
  closed : Bool
  trace : List Event
  deriving DecidableEq, Repr

/-- A run of the reader loop: it returned with the events it caused, or it
ended in the panic of `make([]byte, trialLen)` (nothing in `read` recovers it)
after the events it caused, or it is still running in some state. -/
inductive ReadResult where
  | returned (trace : List Event)
  | panicked (trace : List Event)
  | running (st : ReaderState)
  deriving DecidableEq, Repr

/-- The number of bytes an iteration of `read` asks for: the header length
when `action == 1`, and `bodyLen` otherwise. -/
def trialLen (opt : Opt) (st : ReaderState) : Int :=
  if st.action = 1 then (opt.PacketHeaderLength : Int) else st.bodyLen

/-- The first half of an iteration of `read`: the packet is reset and filled
by the inner loop. On a socket that is closed the first call of `Read` fails,
after its buffer has been made. -/
def readPacket (opt : Opt) (limit : Nat) (st : ReaderState) : Filled :=
  if st.closed ∧ 0 < trialLen opt st then
    (if limit < (trialLen opt st).toNat then Filled.panic else Filled.failed)
  else readFull limit st.reads (trialLen opt st).toNat st.incoming []

/-- One iteration of the `for` of `read`. -/
def readIteration (opt : Opt) (hook : Middleware) (limit : Nat) (st : ReaderState) :
    ReadResult :=
  match readPacket opt limit st with
  | Filled.panic => ReadResult.panicked st.trace
  | Filled.failed => ReadResult.returned (st.trace ++ [Event.connClose] ++ readBreak hook)
  | Filled.done packet incoming reads =>
    if st.action = 1 then
      let decoded := packetLenToInt packet
      if decoded.1 > opt.PacketMaxLength then
        ReadResult.returned (st.trace ++ decoded.2 ++ [Event.connClose] ++ readBreak hook)
      else
        ReadResult.running
          { action := 2, bodyLen := decoded.1, incoming := incoming, reads := reads,
            closed := st.closed || closes decoded.2, trace := st.trace ++ decoded.2 }
    else
      ReadResult.running
        { action := 1, bodyLen := st.bodyLen, incoming := incoming, reads := reads,
          closed := st.closed, trace := st.trace ++ [Event.spawnRoute packet] }

/-- The method `read`, run for at most `fuel` iterations from `st`. -/
def readFrom (opt : Opt) (hook : Middleware) (limit : Nat) : Nat → ReaderState → ReadResult
  | 0, st => ReadResult.running st
  | fuel + 1, st =>
    match readIteration opt hook limit st with
    | ReadResult.returned trace => ReadResult.returned trace
    | ReadResult.panicked trace => ReadResult.panicked trace
    | ReadResult.running st1 => readFrom opt hook limit fuel st1

/-- The state in which `read` starts: `action := 1`, `bodyLen := 0`, on an
open socket on which the peer sends `incoming`. -/
def readStart (incoming : List Byte) (reads : List ReadEvent) : ReaderState :=
  { action := 1, bodyLen := 0, incoming := incoming, reads := reads,
    closed := false, trace := [] }

/-- The method `read` on a fresh connection, for at most `fuel` iterations,
in a runtime that allocates slices of `limit` bytes at most. -/
def read (opt : Opt) (hook : Middleware) (limit : Nat) (fuel : Nat) (incoming : List Byte)
    (reads : List ReadEvent) : ReadResult :=
  readFrom opt hook limit fuel (readStart incoming reads)

/-! ## Dispatch -/

/-- The value of a byte slice read least significant byte first. -/
def littleEndianValue : List Byte → Nat
  | [] => 0
  | b :: bs => b.val + 256 * littleEndianValue bs

/-- The spec's `decodeLength`: the bytes of the header interpreted as an
unsigned integer in the configured byte order. -/
def specDecodeLength (order : ByteOrder) (buf : List Byte) : Nat :=
  match order with
  | ByteOrder.LittleEndian => littleEndianValue buf
  | ByteOrder.BigEndian => littleEndianValue buf.reverse

/-- A call of `Read` that returns without error and may return a byte. -/
def isDelivery : ReadEvent → Bool
  | ReadEvent.deliver m => decide (0 < m)
  | ReadEvent.fail => false

/-- The events of the writer loop on a queue: for each payload before the
first empty one, the write of its header and the write of the payload. -/
def writeEvents (opt : Opt) (hook : Middleware) (queue : List (List Byte)) : List Event :=
  (queue.takeWhile (fun d => !d.isEmpty)).flatMap
    (fun d => [Event.sockWrite (packetLenToByte opt hook (d.length : Int)).1, Event.sockWrite d])

/-! ## Concrete configurations used by the closed statements -/

/-- The configuration of the example server: header of 4 bytes, bodies of at
most 6000 bytes, big-endian. -/
def exampleOpt : Opt := ⟨4, 6000, ByteOrder.BigEndian⟩

/-- A middleware with one closed hook (7) and one recover hook (9). -/
def exampleHook : Middleware := ⟨[7], [9], [], [], [], []⟩

/-- The allocation limit used in the closed statements: `2 ^ 48` bytes, the
size of the heap address space of the Go runtime on 64-bit Linux. -/
def exampleLimit : Nat := 2 ^ 48

theorem littleEndianValue_append (xs ys : List Byte) :
    littleEndianValue (xs ++ ys) = littleEndianValue xs + 256 ^ xs.length * littleEndianValue ys := by
  induction xs with
  | nil => simp [littleEndianValue]
  | cons b bs ih =>
    rw [List.cons_append]
    simp only [littleEndianValue, ih, List.length_cons]
    ring

theorem foldl_bigEndian (bs : List Byte) (a : Nat) :
    bs.foldl (fun acc b => acc * 256 + b.val) a
      = a * 256 ^ bs.length + littleEndianValue bs.reverse := by
  induction bs generalizing a with
  | nil => simp [littleEndianValue]
  | cons b bs ih =>
    simp only [List.foldl_cons, ih, List.reverse_cons, littleEndianValue_append,
      List.length_cons, List.length_reverse, littleEndianValue]
    ring

theorem bigEndianValue_eq (bs : List Byte) :
    bigEndianValue bs = littleEndianValue bs.reverse := by
  simp [bigEndianValue, foldl_bigEndian]

theorem littleEndianValue_lt (bs : List Byte) : littleEndianValue bs < 256 ^ bs.length := by
  induction bs with
  | nil => simp [littleEndianValue]
  | cons b bs ih =>
    simp only [littleEndianValue, List.length_cons, pow_succ]
    have hb := b.isLt
    omega

theorem littleEndianBytes_length (w x : Nat) : (littleEndianBytes w x).length = w := by
  induction w generalizing x with
  | zero => rfl
  | succ w ih => simp [littleEndianBytes, ih]

theorem littleEndianValue_bytes (w x : Nat) :
    littleEndianValue (littleEndianBytes w x) = x % 256 ^ w := by
  induction w generalizing x with
  | zero => simp [littleEndianBytes, littleEndianValue, Nat.mod_one]
  | succ w ih =>
    have h256 : (Fin.ofNat (x % 256) : Byte).val = x % 256 := by
      simp [Fin.ofNat, Nat.mod_mod]
    simp only [littleEndianBytes, littleEndianValue, ih, h256]
    rw [pow_succ, mul_comm (256 ^ w) 256, Nat.mod_mul]

theorem bigEndianBytes_length (w x : Nat) : (bigEndianBytes w x).length = w := by
  simp [bigEndianBytes, littleEndianBytes_length]

theorem bigEndianValue_bytes (w x : Nat) :
    bigEndianValue (bigEndianBytes w x) = x % 256 ^ w := by
  simp [bigEndianValue_eq, bigEndianBytes, littleEndianValue_bytes]

theorem bigEndianValue_lt (bs : List Byte) : bigEndianValue bs < 256 ^ bs.length := by
  rw [bigEndianValue_eq]
  simpa using littleEndianValue_lt bs.reverse

/-- The header of a length that fits the header width (and the `int`
range) decodes to that length, with no event. -/
theorem packetLenToInt_bigEndianBytes (w x : Nat) (hw : w = 1 ∨ w = 2 ∨ w = 4 ∨ w = 8)
    (hfit : x < 2 ^ (8 * w)) (hint : x < 2 ^ 63) :
    packetLenToInt (bigEndianBytes w x) = ((x : Int), []) := by
  have hval : bigEndianValue (bigEndianBytes w x) = x := by
    rw [bigEndianValue_bytes, Nat.mod_eq_of_lt]
    rw [show (256 : Nat) = 2 ^ 8 by norm_num, ← pow_mul]
    exact hfit
  unfold packetLenToInt
  rw [bigEndianBytes_length, hval]
  have hint2 : x < 9223372036854775808 := by simpa using hint
  rcases hw with h | h | h | h <;> subst h <;> simp [intOfUint64, hint2]

theorem specDecodeLength_bigEndian (head : List Byte) :
    specDecodeLength ByteOrder.BigEndian head = bigEndianValue head := by
  simp [specDecodeLength, bigEndianValue_eq]

/-- On a header of 1, 2, 4 or 8 bytes (with 8 bytes: of a value below
`2 ^ 63`) `packetLenToInt` gives the unsigned big-endian value and no event. -/
theorem packetLenToInt_value (opt : Opt) (head : List Byte)
    (hw : opt.PacketHeaderLength = 1 ∨ opt.PacketHeaderLength = 2
      ∨ opt.PacketHeaderLength = 4 ∨ opt.PacketHeaderLength = 8)
    (hlen : head.length = opt.PacketHeaderLength)
    (hint : opt.PacketHeaderLength = 8 → specDecodeLength ByteOrder.BigEndian head < 2 ^ 63) :
    packetLenToInt head = ((specDecodeLength ByteOrder.BigEndian head : Int), []) := by
  rw [specDecodeLength_bigEndian] at hint ⊢
  unfold packetLenToInt
  rw [hlen]
  rcases hw with h | h | h | h
  · simp [h]
  · simp [h]
  · simp [h]
  · have h63 : bigEndianValue head < 9223372036854775808 := by simpa using hint h
    simp [h, intOfUint64, h63]

/-! ## Framing codec: theorems -/

/-- C1 (as stated, refuted). With a header of 1 byte and a maximum of 6000,
the length 300 is within `0 .. max` and its header `[44]` decodes to 44; with a
header of 2 bytes written little-endian, the length 1 decodes to 256. -/
theorem packetLen_roundtrip_fails :
    ((0 : Int) ≤ 300 ∧ (300 : Int) ≤ (Opt.mk 1 6000 ByteOrder.BigEndian).PacketMaxLength
      ∧ (packetLenToInt
          (packetLenToByte (Opt.mk 1 6000 ByteOrder.BigEndian) exampleHook 300).1).1 = 44)
    ∧ ((0 : Int) ≤ 1 ∧ (1 : Int) ≤ (Opt.mk 2 6000 ByteOrder.LittleEndian).PacketMaxLength
      ∧ (packetLenToInt
          (packetLenToByte (Opt.mk 2 6000 ByteOrder.LittleEndian) exampleHook 1).1).1 = 256) := by
  decide

/-- C1 (amended). For a header length in {1,2,4,8}, headers written
big-endian, a maximum in the `int` range and every `n` with `0 <= n <= max`
that fits the header width (`n < 2 ^ (8 * h)`), decoding the header that
`packetLenToByte` produces for `n` gives `n` back, and neither direction
closes the socket or calls a hook. -/
theorem packetLen_roundtrip (opt : Opt) (hook : Middleware) (n : Int)
    (hw : opt.PacketHeaderLength = 1 ∨ opt.PacketHeaderLength = 2
      ∨ opt.PacketHeaderLength = 4 ∨ opt.PacketHeaderLength = 8)
    (horder : opt.ByteOrder = ByteOrder.BigEndian)
    (hn : 0 ≤ n) (hmax : n ≤ opt.PacketMaxLength) (hint : opt.PacketMaxLength < 2 ^ 63)
    (hfit : n < 2 ^ (8 * opt.PacketHeaderLength)) :
    (packetLenToInt (packetLenToByte opt hook n).1).1 = n
      ∧ (packetLenToByte opt hook n).2 = []
      ∧ (packetLenToInt (packetLenToByte opt hook n).1).2 = [] := by
  obtain ⟨x, rfl⟩ := Int.eq_ofNat_of_zero_le hn
  have hfitN : x < 2 ^ (8 * opt.PacketHeaderLength) := by exact_mod_cast hfit
  have hintN : x < 2 ^ 63 := by
    have : (x : Int) < 2 ^ 63 := lt_of_le_of_lt hmax hint
    exact_mod_cast this
  have huint : toUint opt.PacketHeaderLength (x : Int) = x := by
    unfold toUint
    have : ((x : Int) % (2 ^ (8 * opt.PacketHeaderLength) : Int)) = (x : Int) :=
      Int.emod_eq_of_lt (by positivity) hfit
    rw [this]
    simp
  have henc : packetLenToByte opt hook (x : Int)
      = (bigEndianBytes opt.PacketHeaderLength x, []) := by
    simp [packetLenToByte, hw, horder, toBytes, huint]
  rw [henc, packetLenToInt_bigEndianBytes _ _ hw hfitN hintN]
  simp

/-- Witness of `packetLen_roundtrip`: header of 4 bytes, maximum 6000, length 5. -/
theorem packetLen_roundtrip_witness :
    (packetLenToInt (packetLenToByte exampleOpt exampleHook 5).1).1 = 5
      ∧ (packetLenToByte exampleOpt exampleHook 5).2 = []
      ∧ (packetLenToInt (packetLenToByte exampleOpt exampleHook 5).1).2 = [] :=
  packetLen_roundtrip exampleOpt exampleHook 5 (by decide) rfl (by decide) (by decide)
    (by decide) (by decide)

/-- C2 (as stated, refuted). With a header of 2 bytes and the little-endian
order configured, the header `01 00` is the unsigned integer 1, and
`packetLenToInt` returns 256. -/
theorem packetLenToInt_ignores_order :
    [(1 : Byte), 0].length = (Opt.mk 2 6000 ByteOrder.LittleEndian).PacketHeaderLength
      ∧ specDecodeLength (Opt.mk 2 6000 ByteOrder.LittleEndian).ByteOrder [1, 0] = 1
      ∧ (packetLenToInt [1, 0]).1 = 256 := by
  decide

/-- C2 (amended). For a header length in {1,2,4,8}, whatever byte order is
configured, and every buffer of exactly that many bytes whose big-endian value
is below `2 ^ 63` when the header has 8 bytes, `packetLenToInt` returns the
bytes read as an unsigned big-endian integer, with no event; the result is not
negative and below `2 ^ (8 * h)`. -/
theorem packetLenToInt_bigEndian (opt : Opt) (head : List Byte)
    (hw : opt.PacketHeaderLength = 1 ∨ opt.PacketHeaderLength = 2
      ∨ opt.PacketHeaderLength = 4 ∨ opt.PacketHeaderLength = 8)
    (hlen : head.length = opt.PacketHeaderLength)
    (hint : opt.PacketHeaderLength = 8 → specDecodeLength ByteOrder.BigEndian head < 2 ^ 63) :
    packetLenToInt head = ((specDecodeLength ByteOrder.BigEndian head : Int), [])
      ∧ 0 ≤ (packetLenToInt head).1
      ∧ (packetLenToInt head).1 < 2 ^ (8 * opt.PacketHeaderLength) := by
  have hspec := specDecodeLength_bigEndian head
  have hlt : bigEndianValue head < 2 ^ (8 * opt.PacketHeaderLength) := by
    have := bigEndianValue_lt head
    rwa [show (256 : Nat) = 2 ^ 8 by norm_num, ← pow_mul, hlen] at this
  have heq := packetLenToInt_value opt head hw hlen hint
  rw [heq]
  refine ⟨rfl, by positivity, ?_⟩
  show (specDecodeLength ByteOrder.BigEndian head : Int) < 2 ^ (8 * opt.PacketHeaderLength)
  rw [hspec]
  exact_mod_cast hlt

/-- Witness of `packetLenToInt_bigEndian`: the header `00 00 00 05` of the
example server, with the little-endian order configured. -/
theorem packetLenToInt_bigEndian_witness :
    packetLenToInt [0, 0, 0, 5]
        = ((specDecodeLength ByteOrder.BigEndian [0, 0, 0, 5] : Int), [])
      ∧ 0 ≤ (packetLenToInt [0, 0, 0, 5]).1
      ∧ (packetLenToInt [0, 0, 0, 5]).1
          < 2 ^ (8 * (Opt.mk 4 6000 ByteOrder.LittleEndian).PacketHeaderLength) :=
  packetLenToInt_bigEndian (Opt.mk 4 6000 ByteOrder.LittleEndian) [0, 0, 0, 5]
    (by decide) (by decide) (by decide)

/-- C9 (the code at the failing input). With a header length of 3 and one
recover hook registered, `packetLenToByte` calls the recover hook with the
header-length error and closes the socket, and `packetLenToInt` on a header of
3 bytes closes the socket, returns 0 and calls no recover hook. -/
theorem packetLenToInt_bad_width_no_recover :
    packetLenToByte (Opt.mk 3 6000 ByteOrder.BigEndian) exampleHook 5
        = ([], [Event.recoverHook 9 Fault.headerLength false, Event.connClose])
      ∧ packetLenToInt [0, 0, 5] = (0, [Event.connClose]) := by
  decide

/-! ## Outbound path: theorems -/

/-- C5. With a maximum body length that is not negative, for every payload
and every queue: `send` appends the payload to the tail of the queue exactly
when `0 < len(payload) <= max` and otherwise leaves the queue as it is; it
calls every recover hook, once each and in order, with the too-large error
exactly when `len(payload) > max`; it calls none for an empty payload; and it
never closes the socket. -/
theorem send_spec (opt : Opt) (hook : Middleware) (queue : List (List Byte))
    (data : List Byte) (hmax : 0 ≤ opt.PacketMaxLength) :
    (send opt hook queue data).1
        = (if 0 < data.length ∧ (data.length : Int) ≤ opt.PacketMaxLength
            then queue ++ [data] else queue)
      ∧ (send opt hook queue data).2
        = (if (data.length : Int) > opt.PacketMaxLength
            then hook.recover.map (fun f => Event.recoverHook f Fault.tooLarge false) else [])
      ∧ (data.length = 0 → (send opt hook queue data).2 = [])
      ∧ Event.connClose ∉ (send opt hook queue data).2 := by
  unfold send
  by_cases h0 : data.length = 0
  · have hle : ¬ (0 : Int) > opt.PacketMaxLength := not_lt.mpr hmax
    simp [h0, hle]
  · have hpos : 0 < data.length := Nat.pos_of_ne_zero h0
    have h0i : ¬ ((data.length : Int) = 0) := by exact_mod_cast h0
    by_cases hbig : (data.length : Int) > opt.PacketMaxLength
    · have hnle : ¬ ((data.length : Int) ≤ opt.PacketMaxLength) := not_le.mpr hbig
      simp [h0, hbig, hnle]
    · have hle : (data.length : Int) ≤ opt.PacketMaxLength := not_lt.mp hbig
      simp [h0, hbig, hle, hpos]

/-- Witness of `send_spec`: a payload of 3 bytes on the example server. -/
theorem send_spec_witness :
    (send exampleOpt exampleHook [[1]] [1, 2, 3]).1
        = (if 0 < [(1 : Byte), 2, 3].length
              ∧ (([(1 : Byte), 2, 3].length : Nat) : Int) ≤ exampleOpt.PacketMaxLength
            then [[1]] ++ [[1, 2, 3]] else [[1]])
      ∧ (send exampleOpt exampleHook [[1]] [1, 2, 3]).2
        = (if (([(1 : Byte), 2, 3].length : Nat) : Int) > exampleOpt.PacketMaxLength
            then exampleHook.recover.map (fun f => Event.recoverHook f Fault.tooLarge false)
            else [])
      ∧ ([(1 : Byte), 2, 3].length = 0 → (send exampleOpt exampleHook [[1]] [1, 2, 3]).2 = [])
      ∧ Event.connClose ∉ (send exampleOpt exampleHook [[1]] [1, 2, 3]).2 :=
  send_spec exampleOpt exampleHook [[1]] [1, 2, 3] (by decide)

/-- C6 (as stated, refuted). `Encode()` recorded the fault `other 3` and
wrote nothing into the buffer: `Push` returns the no-write-stream error, not
the recorded fault. -/
theorem Push_fault_empty_buffer :
    (Push exampleOpt exampleHook [] 1 ⟨some [], some (Fault.other 3)⟩).1
        = some Fault.noWriteStream
      ∧ (Push exampleOpt exampleHook [] 1 ⟨none, some (Fault.other 3)⟩).1
        = some Fault.noWriteStream := by
  decide

/-- C6 (amended). For every push whose `Encode()` recorded a write fault,
the queue is left as it is and the only events are the calls of the push hooks
(no recover hook is called and the socket is not closed); `Push` returns
exactly that fault when `Encode()` wrote at least one byte into the buffer of
the context, and the no-write-stream error when the buffer is nil or empty. -/
theorem Push_write_fault (opt : Opt) (hook : Middleware) (queue : List (List Byte))
    (protocolId : Nat) (outBuffer : Option (List Byte)) (e : Fault) :
    (Push opt hook queue protocolId ⟨outBuffer, some e⟩).2.1 = queue
      ∧ (Push opt hook queue protocolId ⟨outBuffer, some e⟩).2.2
          = hook.push.map (fun f => Event.pushHook f protocolId)
      ∧ (∀ buffer, outBuffer = some buffer → buffer ≠ [] →
          (Push opt hook queue protocolId ⟨outBuffer, some e⟩).1 = some e)
      ∧ (outBuffer = none ∨ outBuffer = some [] →
          (Push opt hook queue protocolId ⟨outBuffer, some e⟩).1 = some Fault.noWriteStream) := by
  unfold Push
  cases outBuffer with
  | none => simp
  | some buffer =>
    by_cases hb : buffer = []
    · simp [hb]
    · have hlen : buffer.length ≠ 0 := by simpa using hb
      simp [hb, hlen]

/-- C7 (as stated, refuted). Maximum body length 2, no hook but one recover
hook, `Encode()` wrote 3 bytes and recorded no fault: `Push` returns `nil`;
the recover hook gets the too-large error and nothing is queued. -/
theorem Push_oversize_returns_nil :
    Push (Opt.mk 4 2 ByteOrder.BigEndian) exampleHook [] 1 ⟨some [1, 2, 3], none⟩
      = (none, [], [Event.recoverHook 9 Fault.tooLarge false]) := by
  decide

/-- C7 (amended). With a maximum body length that is not negative, for every
push whose `Encode()` wrote at least one byte and recorded no write fault, and
whose payload after the writer hooks is longer than the maximum: `Push` returns `nil` to its caller,
nothing is queued, and after the push hooks every recover hook is called with
the too-large error. -/
theorem Push_oversize (opt : Opt) (hook : Middleware) (queue : List (List Byte))
    (protocolId : Nat) (buffer : List Byte) (hmax : 0 ≤ opt.PacketMaxLength)
    (hne : buffer ≠ [])
    (hbig : (((hook.writer.foldl (fun b f => f protocolId b) buffer).length : Nat) : Int)
      > opt.PacketMaxLength) :
    Push opt hook queue protocolId ⟨some buffer, none⟩
      = (none, queue, hook.push.map (fun f => Event.pushHook f protocolId)
          ++ hook.recover.map (fun f => Event.recoverHook f Fault.tooLarge false)) := by
  have hlen : buffer.length ≠ 0 := by simpa using hne
  unfold Push send
  by_cases h0 : (hook.writer.foldl (fun b f => f protocolId b) buffer).length = 0
  · exfalso
    rw [h0] at hbig
    exact absurd hmax (not_le.mpr hbig)
  · have h0i : ¬ ((((hook.writer.foldl (fun b f => f protocolId b) buffer).length : Nat) : Int) = 0) := by
      exact_mod_cast h0
    simp [hlen, h0i, hbig]

/-- Witness of `Push_oversize`: maximum body length 2 and a payload of 3 bytes. -/
theorem Push_oversize_witness :
    Push (Opt.mk 4 2 ByteOrder.BigEndian) exampleHook [[5]] 1 ⟨some [1, 2, 3], none⟩
      = (none, [[5]], exampleHook.push.map (fun f => Event.pushHook f 1)
          ++ exampleHook.recover.map (fun f => Event.recoverHook f Fault.tooLarge false)) :=
  Push_oversize (Opt.mk 4 2 ByteOrder.BigEndian) exampleHook [[5]] 1 [1, 2, 3] (by decide)
    (by decide) (by decide)

/-! ## Writer loop: theorems -/

theorem packetLenToByte_events (opt : Opt) (hook : Middleware) (plen : Int)
    (hw : opt.PacketHeaderLength = 1 ∨ opt.PacketHeaderLength = 2
      ∨ opt.PacketHeaderLength = 4 ∨ opt.PacketHeaderLength = 8) :
    (packetLenToByte opt hook plen).2 = [] := by
  unfold packetLenToByte toBytes
  cases opt.ByteOrder <;> simp [hw]

theorem wireBytes_append (xs ys : List Event) :
    wireBytes (xs ++ ys) = wireBytes xs ++ wireBytes ys := by
  induction xs with
  | nil => rfl
  | cons e es ih => cases e <;> simp [wireBytes, ih]

theorem wireBytes_writeEvents (opt : Opt) (hook : Middleware) (queue : List (List Byte)) :
    wireBytes (writeEvents opt hook queue)
      = (queue.takeWhile (fun d => !d.isEmpty)).flatMap
          (fun d => (packetLenToByte opt hook (d.length : Int)).1 ++ d) := by
  unfold writeEvents
  induction queue.takeWhile (fun d => !d.isEmpty) with
  | nil => rfl
  | cons d ds ih =>
    simp only [List.flatMap_cons, wireBytes_append, ih]
    simp [wireBytes]

theorem write_run (opt : Opt) (hook : Middleware) (wr : Nat → Bool)
    (hw : opt.PacketHeaderLength = 1 ∨ opt.PacketHeaderLength = 2
      ∨ opt.PacketHeaderLength = 4 ∨ opt.PacketHeaderLength = 8)
    (hwr : ∀ k, wr k = true) (queue : List (List Byte)) :
    ∀ (n : Nat) (trace : List Event),
      write opt hook wr queue false n trace
        = (if queue.all (fun d => !d.isEmpty)
            then WriteResult.waiting false (trace ++ writeEvents opt hook queue)
            else WriteResult.returned false (trace ++ writeEvents opt hook queue)) := by
  induction queue with
  | nil => intro n trace; simp [write, writeEvents]
  | cons d ds ih =>
    intro n trace
    by_cases hd : d = []
    · subst hd
      simp [write, writeEvents]
    · have hlen : ¬ ((d.length : Int) = 0) := by
        have : d.length ≠ 0 := by simpa using hd
        exact_mod_cast this
      have hemp : d.isEmpty = false := by
        cases d with
        | nil => exact absurd rfl hd
        | cons _ _ => rfl
      have hev := packetLenToByte_events opt hook (d.length : Int) hw
      rw [write]
      simp only [hlen, if_false, hev, closes, List.any_nil, Bool.or_false, hwr,
        Bool.not_true, Bool.false_eq_true, List.append_nil]
      rw [ih]
      simp [writeEvents, hemp, List.takeWhile_cons]

/-- C8. With a header length in {1,2,4,8} and every socket write succeeding,
for every sequence of payloads received from the queue, the writer loop writes
to the socket exactly the concatenation, in queue order, of (length header ++
payload) for the payloads before the first empty one, the header being the one
`packetLenToByte` gives for the length of the payload; it does nothing else to
the outside world; and it returns when it receives an empty payload, having
written nothing for it or for any payload behind it (with no empty payload in
the queue it waits for the next one). -/
theorem write_wire_bytes (opt : Opt) (hook : Middleware) (wr : Nat → Bool)
    (queue : List (List Byte))
    (hw : opt.PacketHeaderLength = 1 ∨ opt.PacketHeaderLength = 2
      ∨ opt.PacketHeaderLength = 4 ∨ opt.PacketHeaderLength = 8)
    (hwr : ∀ k, wr k = true) :
    ∃ trace : List Event,
      write opt hook wr queue false 0 []
          = (if queue.all (fun d => !d.isEmpty) then WriteResult.waiting false trace
              else WriteResult.returned false trace)
        ∧ wireBytes trace
          = (queue.takeWhile (fun d => !d.isEmpty)).flatMap
              (fun d => (packetLenToByte opt hook (d.length : Int)).1 ++ d)
        ∧ (∀ e ∈ trace, ∃ bs, e = Event.sockWrite bs) := by
  refine ⟨writeEvents opt hook queue, ?_, wireBytes_writeEvents opt hook queue, ?_⟩
  · simpa using write_run opt hook wr hw hwr queue 0 []
  · intro e he
    unfold writeEvents at he
    rw [List.mem_flatMap] at he
    obtain ⟨d, _, hd⟩ := he
    simp only [List.mem_cons, List.mem_singleton, List.not_mem_nil, or_false] at hd
    rcases hd with h | h
    · exact ⟨_, h⟩
    · exact ⟨_, h⟩

/-- Witness of `write_wire_bytes`: the example server with the queue
`[1,2]`, `[3]`, the empty payload, `[4]` puts `00 00 00 02 01 02 00 00 00 01 03`
on the socket and returns. -/
theorem write_wire_bytes_witness :
    ∃ trace : List Event,
      write exampleOpt exampleHook (fun _ => true) [[1, 2], [3], [], [4]] false 0 []
          = WriteResult.returned false trace
        ∧ wireBytes trace = [0, 0, 0, 2, 1, 2, 0, 0, 0, 1, 3]
        ∧ (∀ e ∈ trace, ∃ bs, e = Event.sockWrite bs) :=
  write_wire_bytes exampleOpt exampleHook (fun _ => true) [[1, 2], [3], [], [4]]
    (by decide) (fun _ => rfl)

/-! ## Reader loop: theorems -/

theorem readFull_zero (limit : Nat) (reads : List ReadEvent) (incoming packet : List Byte) :
    readFull limit reads 0 incoming packet = Filled.done packet incoming reads := by
  cases reads with
  | nil => rfl
  | cons e es => cases e <;> rfl

/-- When every coming call of `Read` delivers, the peer has sent `k` bytes
or more, there are `k` calls or more to come and `k` bytes can be allocated,
the inner loop fills the packet with the next `k` bytes. -/
theorem readFull_deliver (limit : Nat) (reads : List ReadEvent) :
    ∀ (k : Nat) (incoming packet : List Byte),
      (∀ e ∈ reads, isDelivery e = true) → k ≤ incoming.length → k ≤ reads.length →
      k ≤ limit →
      ∃ reads1, readFull limit reads k incoming packet
          = Filled.done (packet ++ incoming.take k) (incoming.drop k) reads1
        ∧ (∀ e ∈ reads1, isDelivery e = true) ∧ reads.length ≤ reads1.length + k := by
  induction reads with
  | nil =>
    intro k incoming packet _ _ hk _
    have : k = 0 := by simpa using hk
    subst this
    exact ⟨[], by simp [readFull_zero], by simp, by simp⟩
  | cons e es ih =>
    intro k incoming packet hall hinc hk hlim
    cases k with
    | zero => exact ⟨e :: es, by simp [readFull_zero], hall, by simp⟩
    | succ t =>
      have he : isDelivery e = true := hall e (List.mem_cons_self _ _)
      have hes : ∀ x ∈ es, isDelivery x = true := fun x hx => hall x (List.mem_cons_of_mem _ hx)
      cases e with
      | fail => simp [isDelivery] at he
      | deliver m =>
        have hm : 0 < m := by simpa [isDelivery] using he
        have hnolim : ¬ (limit < t + 1) := by omega
        have hlen0 : ¬ (min (t + 1) (min m incoming.length) = 0) := by omega
        have hlen1 : min (t + 1) (min m incoming.length) ≤ t + 1 := Nat.min_le_left _ _
        have hk1 : t + 1 ≤ es.length + 1 := by simpa using hk
        obtain ⟨reads1, hrun, hall1, hcount⟩ :=
          ih (t + 1 - min (t + 1) (min m incoming.length))
            (incoming.drop (min (t + 1) (min m incoming.length)))
            (packet ++ incoming.take (min (t + 1) (min m incoming.length))) hes
            (by rw [List.length_drop]; omega) (by omega) (by omega)
        refine ⟨reads1, ?_, hall1, ?_⟩
        · rw [readFull]
          simp only [hnolim, hlen0, if_false]
          rw [hrun]
          have htake : incoming.take (min (t + 1) (min m incoming.length))
              ++ (incoming.drop (min (t + 1) (min m incoming.length))).take
                  (t + 1 - min (t + 1) (min m incoming.length))
              = incoming.take (t + 1) := by
            rw [← List.take_add]
            congr 1
            omega
          have hdrop : (incoming.drop (min (t + 1) (min m incoming.length))).drop
                  (t + 1 - min (t + 1) (min m incoming.length))
              = incoming.drop (t + 1) := by
            rw [List.drop_drop]
            congr 1
            omega
          rw [List.append_assoc, htake, hdrop]
        · simp only [List.length_cons]
          omega

/-- The inner loop never gets calls of `Read` back, and uses one at least
when it is asked for a byte. -/
theorem readFull_reads (limit : Nat) (reads : List ReadEvent) :
    ∀ (k : Nat) (incoming packet p i : List Byte) (r : List ReadEvent),
      readFull limit reads k incoming packet = Filled.done p i r →
      r.length ≤ reads.length ∧ (0 < k → r.length < reads.length) := by
  induction reads with
  | nil =>
    intro k incoming packet p i r h
    cases k with
    | zero =>
      rw [readFull_zero] at h
      cases h
      simp
    | succ t =>
      rw [readFull] at h
      split at h <;> cases h
  | cons e es ih =>
    intro k incoming packet p i r h
    cases k with
    | zero =>
      rw [readFull_zero] at h
      cases h
      simp
    | succ t =>
      cases e with
      | fail =>
        rw [readFull] at h
        split at h <;> cases h
      | deliver m =>
        rw [readFull] at h
        by_cases hlim : limit < t + 1
        · simp [hlim] at h
        · by_cases hlen : min (t + 1) (min m incoming.length) = 0
          · simp [hlim, hlen] at h
          · simp only [hlim, hlen, if_false] at h
            have := (ih _ _ _ p i r h).1
            simp only [List.length_cons]
            omega

/-- The inner loop does not panic when it is asked for a length that can be
allocated. -/
theorem readFull_no_panic (limit : Nat) (reads : List ReadEvent) :
    ∀ (k : Nat) (incoming packet : List Byte), k ≤ limit →
      readFull limit reads k incoming packet ≠ Filled.panic := by
  induction reads with
  | nil =>
    intro k incoming packet hk
    cases k with
    | zero => simp [readFull_zero]
    | succ t =>
      have hnolim : ¬ (limit < t + 1) := by omega
      simp [readFull, hnolim]
  | cons e es ih =>
    intro k incoming packet hk
    cases k with
    | zero => simp [readFull_zero]
    | succ t =>
      have hnolim : ¬ (limit < t + 1) := by omega
      cases e with
      | fail => simp [readFull, hnolim]
      | deliver m =>
        rw [readFull]
        by_cases hlen : min (t + 1) (min m incoming.length) = 0
        · simp [hnolim, hlen]
        · simp only [hnolim, hlen, if_false]
          exact ih _ _ _ (by omega)

/-- C3 (the code at the failing input). Header length 8, maximum 6000: the
header `80 00 00 00 00 00 00 00` declares a body of `2 ^ 63` bytes. The
decoded `int` is negative, the guard lets it through, and the reader loop
spawns a dispatch with an empty body before it goes back to reading a header
(here the next read finds nothing and ends the loop). -/
theorem read_uint64_header_dispatches :
    (bigEndianValue [0x80, 0, 0, 0, 0, 0, 0, 0] : Int) > 6000
      ∧ (packetLenToInt [0x80, 0, 0, 0, 0, 0, 0, 0]).1 = -(2 ^ 63)
      ∧ readFrom (Opt.mk 8 6000 ByteOrder.BigEndian) exampleHook exampleLimit 2
          (readStart [0x80, 0, 0, 0, 0, 0, 0, 0] [ReadEvent.deliver 8])
        = ReadResult.running
            { action := 1, bodyLen := -(2 ^ 63), incoming := [], reads := [],
              closed := false, trace := [Event.spawnRoute []] }
      ∧ read (Opt.mk 8 6000 ByteOrder.BigEndian) exampleHook exampleLimit 3
          [0x80, 0, 0, 0, 0, 0, 0, 0] [ReadEvent.deliver 8]
        = ReadResult.returned [Event.spawnRoute [], Event.connClose, Event.closedHook 7] := by
  decide

/-- For a header whose unsigned big-endian value is above the maximum and,
with 8 bytes, below `2 ^ 63`, the reader loop closes the socket, calls the
closed hooks and returns, with no dispatch. -/
theorem read_oversize_header_closes (opt : Opt) (hook : Middleware) (limit : Nat)
    (head rest : List Byte) (reads : List ReadEvent) (fuel : Nat)
    (hw : opt.PacketHeaderLength = 1 ∨ opt.PacketHeaderLength = 2
      ∨ opt.PacketHeaderLength = 4 ∨ opt.PacketHeaderLength = 8)
    (hlen : head.length = opt.PacketHeaderLength)
    (hint : opt.PacketHeaderLength = 8 → specDecodeLength ByteOrder.BigEndian head < 2 ^ 63)
    (hbig : (specDecodeLength ByteOrder.BigEndian head : Int) > opt.PacketMaxLength)
    (hall : ∀ e ∈ reads, isDelivery e = true) (hreads : head.length ≤ reads.length)
    (hlim : head.length ≤ limit) :
    read opt hook limit (fuel + 1) (head ++ rest) reads
      = ReadResult.returned (Event.connClose :: readBreak hook) := by
  obtain ⟨reads1, hrun, -, -⟩ :=
    readFull_deliver limit reads head.length (head ++ rest) [] hall (by simp) hreads hlim
  rw [List.take_left' rfl, List.drop_left' rfl, List.nil_append] at hrun
  have hdec := packetLenToInt_value opt head hw hlen hint
  rw [hlen] at hrun
  simp [read, readStart, readFrom, readIteration, readPacket, trialLen, hrun, hdec, hbig]

/-- With a maximum of `2 ^ 63 - 1` and a header of 8 bytes that declares
`2 ^ 62` bytes, the guard passes and the next iteration ends in the panic of
`make([]byte, trialLen)`: the socket is not closed and no closed hook is
called. -/
theorem read_make_panics :
    read (Opt.mk 8 (2 ^ 63 - 1) ByteOrder.BigEndian) exampleHook exampleLimit 2
        [0x40, 0, 0, 0, 0, 0, 0, 0] [ReadEvent.deliver 8, ReadEvent.deliver 8]
      = ReadResult.panicked [] := by
  decide

theorem packetLenToInt_events (head : List Byte) :
    (packetLenToInt head).2 = [] ∨ (packetLenToInt head).2 = [Event.connClose] := by
  unfold packetLenToInt
  split_ifs <;> simp

/-- What one iteration of the reader loop adds to the events: when it
returns, events that are no closed hook, then the close of the socket, then
the closed hooks; when it goes on, events that are no closed hook; when it
panics, nothing. -/
theorem readIteration_trace (opt : Opt) (hook : Middleware) (limit : Nat) (st : ReaderState) :
    (∀ tr, readIteration opt hook limit st = ReadResult.returned tr →
      ∃ mid, tr = st.trace ++ mid ++ Event.connClose :: readBreak hook
        ∧ ∀ f, Event.closedHook f ∉ mid)
    ∧ (∀ st1, readIteration opt hook limit st = ReadResult.running st1 →
      ∃ mid, st1.trace = st.trace ++ mid ∧ ∀ f, Event.closedHook f ∉ mid)
    ∧ (∀ tr, readIteration opt hook limit st = ReadResult.panicked tr → tr = st.trace) := by
  unfold readIteration
  cases readPacket opt limit st with
  | panic =>
    refine ⟨fun tr h => ?_, fun st1 h => ?_, fun tr h => ?_⟩
    · cases h
    · cases h
    · cases h
      rfl
  | failed =>
    refine ⟨fun tr h => ?_, fun st1 h => ?_, fun tr h => ?_⟩
    · cases h
      exact ⟨[], by simp, by simp⟩
    · cases h
    · cases h
  | done packet incoming reads =>
    have hev : ∀ f, Event.closedHook f ∉ (packetLenToInt packet).2 := by
      intro f
      rcases packetLenToInt_events packet with h0 | h0 <;> simp [h0]
    by_cases hact : st.action = 1
    · by_cases hbig : (packetLenToInt packet).1 > opt.PacketMaxLength
      · simp only [hact, hbig, if_true]
        refine ⟨fun tr h => ?_, fun st1 h => ?_, fun tr h => ?_⟩
        · cases h
          exact ⟨(packetLenToInt packet).2, by simp, hev⟩
        · cases h
        · cases h
      · simp only [hact, hbig, if_true, if_false]
        refine ⟨fun tr h => ?_, fun st1 h => ?_, fun tr h => ?_⟩
        · cases h
        · cases h
          exact ⟨(packetLenToInt packet).2, rfl, hev⟩
        · cases h
    · simp only [hact, if_false]
      refine ⟨fun tr h => ?_, fun st1 h => ?_, fun tr h => ?_⟩
      · cases h
      · cases h
        exact ⟨[Event.spawnRoute packet], rfl, by simp⟩
      · cases h

/-- Every run of the reader loop that returns ends with the close of the
socket followed by the closed hooks, and calls no closed hook before; a run
that ends in a panic calls no closed hook. -/
theorem readFrom_trace (opt : Opt) (hook : Middleware) (limit : Nat) :
    ∀ (fuel : Nat) (st : ReaderState) (tr : List Event),
      (readFrom opt hook limit fuel st = ReadResult.returned tr →
        ∃ mid, tr = st.trace ++ mid ++ Event.connClose :: readBreak hook
          ∧ ∀ f, Event.closedHook f ∉ mid)
      ∧ (readFrom opt hook limit fuel st = ReadResult.panicked tr →
        ∃ mid, tr = st.trace ++ mid ∧ ∀ f, Event.closedHook f ∉ mid) := by
  intro fuel
  induction fuel with
  | zero => intro st tr; simp [readFrom]
  | succ fuel ih =>
    intro st tr
    rw [readFrom]
    cases hit : readIteration opt hook limit st with
    | returned tr1 =>
      refine ⟨fun h => ?_, fun h => ?_⟩
      · cases h
        exact (readIteration_trace opt hook limit st).1 tr hit
      · cases h
    | panicked tr1 =>
      refine ⟨fun h => ?_, fun h => ?_⟩
      · cases h
      · cases h
        exact ⟨[], by simp [(readIteration_trace opt hook limit st).2.2 tr hit], by simp⟩
    | running st1 =>
      obtain ⟨mid1, htr1, hno1⟩ := (readIteration_trace opt hook limit st).2.1 st1 hit
      refine ⟨fun h => ?_, fun h => ?_⟩
      · obtain ⟨mid2, htr2, hno2⟩ := (ih st1 tr).1 h
        refine ⟨mid1 ++ mid2, by rw [htr2, htr1]; simp, ?_⟩
        intro f hf
        rcases List.mem_append.mp hf with h1 | h2
        · exact hno1 f h1
        · exact hno2 f h2
      · obtain ⟨mid2, htr2, hno2⟩ := (ih st1 tr).2 h
        refine ⟨mid1 ++ mid2, by rw [htr2, htr1]; simp, ?_⟩
        intro f hf
        rcases List.mem_append.mp hf with h1 | h2
        · exact hno1 f h1
        · exact hno2 f h2

/-- What one iteration of the reader loop does to the coming calls of `Read`,
to the action and to the body length. -/
theorem readIteration_reads (opt : Opt) (hook : Middleware) (limit : Nat)
    (st st1 : ReaderState)
    (h : readIteration opt hook limit st = ReadResult.running st1) :
    st1.reads.length ≤ st.reads.length
      ∧ (st.action = 1 →
          st1.action = 2 ∧ st1.bodyLen ≤ opt.PacketMaxLength
            ∧ (0 < opt.PacketHeaderLength → st1.reads.length < st.reads.length))
      ∧ (st.action ≠ 1 → st1.action = 1) := by
  unfold readIteration at h
  cases hgot : readPacket opt limit st with
  | panic =>
    rw [hgot] at h
    cases h
  | failed =>
    rw [hgot] at h
    cases h
  | done packet incoming reads =>
    rw [hgot] at h
    have hfull : readFull limit st.reads (trialLen opt st).toNat st.incoming []
        = Filled.done packet incoming reads := by
      unfold readPacket at hgot
      split at hgot
      · split at hgot <;> cases hgot
      · exact hgot
    have hlen := readFull_reads _ _ _ _ _ _ _ _ hfull
    by_cases hact : st.action = 1
    · by_cases hbig : (packetLenToInt packet).1 > opt.PacketMaxLength
      · simp only [hact, hbig, if_true] at h
        cases h
      · simp only [hact, hbig, if_true, if_false] at h
        cases h
        refine ⟨hlen.1, fun _ => ⟨rfl, not_lt.mp hbig, fun hpos => ?_⟩,
          fun hne => absurd hact hne⟩
        apply hlen.2
        simp [trialLen, hact, hpos]
    · simp only [hact, if_false] at h
      cases h
      exact ⟨hlen.1, fun h1 => absurd h1 hact, fun _ => rfl⟩

/-- An iteration that asks for a length the runtime can allocate does not
panic. -/
theorem readIteration_no_panic (opt : Opt) (hook : Middleware) (limit : Nat)
    (st : ReaderState) (hlim : (trialLen opt st).toNat ≤ limit) (tr : List Event) :
    readIteration opt hook limit st ≠ ReadResult.panicked tr := by
  have hpk : readPacket opt limit st ≠ Filled.panic := by
    unfold readPacket
    have hnolim : ¬ (limit < (trialLen opt st).toNat) := by omega
    split
    · simp [hnolim]
    · exact readFull_no_panic limit st.reads _ _ _ hlim
  unfold readIteration
  cases hgot : readPacket opt limit st with
  | panic => exact absurd hgot hpk
  | failed => simp
  | done packet incoming reads =>
    simp only []
    split_ifs <;> simp

/-- With the header length and the maximum body length within what the
runtime can allocate, no run of the reader loop panics. -/
theorem readFrom_no_panic (opt : Opt) (hook : Middleware) (limit : Nat)
    (hhead : opt.PacketHeaderLength ≤ limit) (hmax : opt.PacketMaxLength ≤ (limit : Int)) :
    ∀ (fuel : Nat) (st : ReaderState) (tr : List Event),
      (st.action = 1 ∨ st.bodyLen ≤ opt.PacketMaxLength) →
      readFrom opt hook limit fuel st ≠ ReadResult.panicked tr := by
  intro fuel
  induction fuel with
  | zero => intro st tr _; simp [readFrom]
  | succ fuel ih =>
    intro st tr hinv
    have hlim : (trialLen opt st).toNat ≤ limit := by
      unfold trialLen
      by_cases hact : st.action = 1
      · simp [hact, hhead]
      · have hb : st.bodyLen ≤ opt.PacketMaxLength := by
          rcases hinv with h | h
          · exact absurd h hact
          · exact h
        simp only [hact, if_false]
        omega
    rw [readFrom]
    cases hit : readIteration opt hook limit st with
    | returned tr1 => simp
    | panicked tr1 => exact absurd hit (readIteration_no_panic opt hook limit st hlim tr1)
    | running st1 =>
      simp only []
      have hr := readIteration_reads opt hook limit st st1 hit
      apply ih st1 tr
      by_cases hact : st.action = 1
      · exact Or.inr (hr.2.1 hact).2.1
      · exact Or.inl (hr.2.2 hact)

/-- With a header of one byte at least, the reader loop ends: two
iterations use up one call of `Read` at least. -/
theorem readFrom_ends (opt : Opt) (hook : Middleware) (limit : Nat)
    (hpos : 0 < opt.PacketHeaderLength) :
    ∀ (n : Nat) (st : ReaderState) (fuel : Nat),
      st.action = 1 → st.reads.length ≤ n → 2 * n + 1 ≤ fuel →
      (∃ tr, readFrom opt hook limit fuel st = ReadResult.returned tr)
        ∨ (∃ tr, readFrom opt hook limit fuel st = ReadResult.panicked tr) := by
  intro n
  induction n with
  | zero =>
    intro st fuel hact hn hfuel
    obtain ⟨f, rfl⟩ := Nat.exists_eq_succ_of_ne_zero (by omega : fuel ≠ 0)
    rw [readFrom]
    cases hit : readIteration opt hook limit st with
    | returned tr => exact Or.inl ⟨tr, rfl⟩
    | panicked tr => exact Or.inr ⟨tr, rfl⟩
    | running st1 =>
      have := ((readIteration_reads opt hook limit st st1 hit).2.1 hact).2.2 hpos
      omega
  | succ n ih =>
    intro st fuel hact hn hfuel
    obtain ⟨f1, rfl⟩ := Nat.exists_eq_succ_of_ne_zero (by omega : fuel ≠ 0)
    obtain ⟨f, rfl⟩ := Nat.exists_eq_succ_of_ne_zero (by omega : f1 ≠ 0)
    rw [readFrom]
    cases hit : readIteration opt hook limit st with
    | returned tr => exact Or.inl ⟨tr, rfl⟩
    | panicked tr => exact Or.inr ⟨tr, rfl⟩
    | running st1 =>
      have h1 := (readIteration_reads opt hook limit st st1 hit).2.1 hact
      have hlt := h1.2.2 hpos
      simp only []
      rw [readFrom]
      cases hit2 : readIteration opt hook limit st1 with
      | returned tr => exact Or.inl ⟨tr, rfl⟩
      | panicked tr => exact Or.inr ⟨tr, rfl⟩
      | running st2 =>
        have h2 := readIteration_reads opt hook limit st1 st2 hit2
        have hact2 : st2.action = 1 := h2.2.2 (by rw [h1.1]; decide)
        simp only []
        exact ih st2 f hact2 (by omega) (by omega)

/-- C10. On every run of the reader loop that returns (it returns on a
read error, a read of zero bytes, a passed deadline or an oversize header),
the events end with the close of the socket followed by one call of each
registered closed hook, in registration order, and no closed hook is called
before. With a header of one byte at least the loop ends, whatever the peer
sends and whatever the calls of `Read` do: it returns, or `make([]byte,
trialLen)` panics, which happens to no run when the header length and the
maximum body length are lengths the runtime can allocate; such a panic is not
a return of `read` and calls no closed hook. `Close` closes the socket and
calls no closed hook. -/
theorem read_closed_hooks_once (opt : Opt) (hook : Middleware) (limit : Nat)
    (incoming : List Byte) (reads : List ReadEvent) :
    (∀ fuel tr, read opt hook limit fuel incoming reads = ReadResult.returned tr →
        ∃ before, tr = before ++ Event.connClose :: hook.closed.map Event.closedHook
          ∧ ∀ f, Event.closedHook f ∉ before)
      ∧ (0 < opt.PacketHeaderLength → ∀ fuel, 2 * reads.length + 1 ≤ fuel →
          (∃ tr, read opt hook limit fuel incoming reads = ReadResult.returned tr)
            ∨ (∃ tr, read opt hook limit fuel incoming reads = ReadResult.panicked tr))
      ∧ (0 < opt.PacketHeaderLength → opt.PacketHeaderLength ≤ limit →
          opt.PacketMaxLength ≤ (limit : Int) → ∀ fuel, 2 * reads.length + 1 ≤ fuel →
          ∃ tr, read opt hook limit fuel incoming reads = ReadResult.returned tr)
      ∧ (∀ fuel tr, read opt hook limit fuel incoming reads = ReadResult.panicked tr →
          ∀ f, Event.closedHook f ∉ tr)
      ∧ (∀ queue, (Close queue).2 = [Event.connClose]) := by
  have hends : 0 < opt.PacketHeaderLength → ∀ fuel, 2 * reads.length + 1 ≤ fuel →
      (∃ tr, read opt hook limit fuel incoming reads = ReadResult.returned tr)
        ∨ (∃ tr, read opt hook limit fuel incoming reads = ReadResult.panicked tr) :=
    fun hpos fuel hfuel =>
      readFrom_ends opt hook limit hpos reads.length (readStart incoming reads) fuel rfl
        (le_refl _) hfuel
  refine ⟨?_, hends, ?_, ?_, fun _ => rfl⟩
  · intro fuel tr h
    obtain ⟨mid, hmid, hno⟩ :=
      (readFrom_trace opt hook limit fuel (readStart incoming reads) tr).1 h
    exact ⟨mid, by simpa [readStart, readBreak] using hmid, hno⟩
  · intro hpos hhead hmax fuel hfuel
    rcases hends hpos fuel hfuel with hret | ⟨tr, hpanic⟩
    · exact hret
    · exact absurd hpanic
        (readFrom_no_panic opt hook limit hhead hmax fuel (readStart incoming reads) tr
          (Or.inl rfl))
  · intro fuel tr h f
    obtain ⟨mid, hmid, hno⟩ :=
      (readFrom_trace opt hook limit fuel (readStart incoming reads) tr).2 h
    have : tr = mid := by simpa [readStart] using hmid
    rw [this]
    exact hno f

end Jaguar
